import Mathlib

/-!
Verification of the real-time audio / handoff orchestration layer of the
voice-gateway server (`server/routers/agent.py`, `server/routers/stt.py`,
`server/routers/twilio.py`, `server/services/greeting_audio.py`).

The Python code is shallowly embedded: pure audio-sample arithmetic is
modelled over `ℚ` and `ℤ` (exact arithmetic; IEEE rounding of the source's
float32/float64 values never crosses an integer boundary at the sample
magnitudes involved, so truncation results agree), dict-shaped registries
are modelled as association lists over `ℕ` keys, and the per-connection
handlers are modelled as explicit state-passing functions.
-/

namespace Anta

/-! ## Frame codec

Sample-level models of the conversion helpers.
-/

/-- Model of `agent.py:21` `pcm16_to_float32`, per sample: each little-endian
signed 16-bit sample is divided by 32768.0. -/
def pcm16_to_float32_sample (s : ℤ) : ℚ := (s : ℚ) / 32768

/-- Truncation toward zero, the behaviour of numpy's float→int `astype` (a C
cast) on in-range values. -/
def truncQ (q : ℚ) : ℤ := if 0 ≤ q then ⌊q⌋ else ⌈q⌉

/-- Reduction of an arbitrary integer to the 16-bit two's-complement range,
the observed behaviour of `astype(np.int16)` on out-of-range float values
(truncate to a wide integer, keep the low 16 bits). -/
def wrap16 (z : ℤ) : ℤ := (z + 32768) % 65536 - 32768

/-- Model of `twilio.py:328` `(audio_array * 32767).astype(np.int16)`, per
sample: multiply by 32767, truncate toward zero, reduce to int16 with
wraparound.  There is no clipping step in that source line. -/
def float32_to_linear16_sample (f : ℚ) : ℤ := wrap16 (truncQ (f * 32767))

/-- Clamp a rational to a closed interval. -/
def clampQ (lo hi q : ℚ) : ℚ := max lo (min hi q)

/-- Model of `greeting_audio.py:69`
`(np.clip(samples, -1.0, 1.0) * 32767).astype(np.int16)`, per sample: the
input is clipped to `[-1, 1]` before scaling, so the scaled value lies in
`[-32767, 32767]` and the int16 cast cannot wrap. -/
def greeting_pcm16_sample (f : ℚ) : ℤ := truncQ (clampQ (-1) 1 f * 32767)

/-- Modelled from the spec: the float32→linear16 conversion the spec
describes, which clamps the scaled value to the int16 range before
truncation so that no input wraps around. -/
def spec_clamped_linear16 (f : ℚ) : ℤ := max (-32768) (min 32767 (truncQ (f * 32767)))

/-- The linear16 → float32 → linear16 round trip as composed by the code
(`agent.py:21` then `twilio.py:328`). -/
def linear16_roundtrip (s : ℤ) : ℤ := float32_to_linear16_sample (pcm16_to_float32_sample s)

/-- Model of `agent.py:33` `upsample_audio`, at the level of float32 samples
(a list of rationals).  `from_rate == to_rate` returns the input unchanged;
otherwise the output length is `int(num_samples * to_rate / from_rate)`
(truncation, modelled by `ℕ` division) and each output sample is the linear
interpolation of the two neighbouring input samples. -/
def upsample_audio (samples : List ℚ) (from_rate to_rate : ℕ) : List ℚ :=
  if from_rate = to_rate then samples
  else
    let num_samples := samples.length
    let out_length := num_samples * to_rate / from_rate
    (List.range out_length).map (fun i =>
      let src_index : ℚ := (i * from_rate : ℕ) / (to_rate : ℚ)
      let idx0 : ℕ := src_index.floor.toNat
      let idx1 : ℕ := min (idx0 + 1) (num_samples - 1)
      let frac : ℚ := src_index - (idx0 : ℚ)
      samples.getD idx0 0 * (1 - frac) + samples.getD idx1 0 * frac)

/-! ### Codec lemmas -/

theorem wrap16_eq_self (z : ℤ) (h1 : -32768 ≤ z) (h2 : z ≤ 32767) : wrap16 z = z := by
  unfold wrap16
  have : (z + 32768) % 65536 = z + 32768 := Int.emod_eq_of_lt (by omega) (by omega)
  omega

theorem truncQ_of_nonneg {q : ℚ} (h : 0 ≤ q) : truncQ q = ⌊q⌋ := by
  unfold truncQ
  exact if_pos h

theorem truncQ_of_neg {q : ℚ} (h : q < 0) : truncQ q = ⌈q⌉ := by
  unfold truncQ
  exact if_neg (not_le.mpr h)

/-- C7 counterexample: the resampler's output length is computed by `int(...)`
(truncation), not by rounding: for a one-sample buffer resampled from
16000 Hz to 44100 Hz the code yields 2 samples while
`round(1 * 44100 / 16000) = round(2.75625) = 3`. -/
theorem upsample_audio_length_not_round :
    (upsample_audio [1] 16000 44100).length = 2 ∧
    round ((((([1] : List ℚ)).length : ℚ) * 44100) / 16000) = 3 := by
  constructor
  · simp only [upsample_audio, List.length_cons, List.length_nil]
    rw [if_neg (by norm_num)]
    simp only [List.length_map, List.length_range]
  · simp only [List.length_cons, List.length_nil]
    rw [round_eq, Int.floor_eq_iff]
    constructor <;> norm_num

/-- C7 (amended): for all positive rates the resampler's output sample count
is the truncation (floor) of `len(x) * to_rate / from_rate`, and when the two
rates are equal the input buffer is returned unchanged. -/
theorem upsample_audio_length_floor :
    (∀ (samples : List ℚ) (r1 r2 : ℕ), 0 < r1 →
        (upsample_audio samples r1 r2).length = samples.length * r2 / r1) ∧
    (∀ (samples : List ℚ) (r : ℕ), upsample_audio samples r r = samples) := by
  constructor
  · intro samples r1 r2 hr1
    by_cases h : r1 = r2
    · subst h
      simp only [upsample_audio, if_pos rfl]
      exact (Nat.mul_div_cancel _ hr1).symm
    · simp only [upsample_audio, if_neg h]
      simp only [List.length_map, List.length_range]
  · intro samples r
    simp [upsample_audio]

/-- C7 witness: the amended length law and the identity law at concrete inputs. -/
theorem upsample_audio_length_floor_witness :
    (upsample_audio [0] 16000 8000).length = ([0] : List ℚ).length * 8000 / 16000 ∧
    upsample_audio [1] 9 9 = [1] :=
  ⟨upsample_audio_length_floor.1 [0] 16000 8000 (by decide),
   upsample_audio_length_floor.2 [1] 9⟩

/-- C8 counterexample: the linear16 → float32 → linear16 round trip is not the
identity even on in-range (non-clipping) samples: the sample 1 maps to
`1/32768`, back-conversion multiplies by 32767 and truncates, giving 0. -/
theorem linear16_roundtrip_not_exact :
    linear16_roundtrip 1 = 0 ∧ (0 : ℤ) ≠ 1 := by
  refine ⟨?_, by decide⟩
  unfold linear16_roundtrip float32_to_linear16_sample pcm16_to_float32_sample
  have h : truncQ ((1 : ℤ) / 32768 * 32767 : ℚ) = 0 := by
    rw [truncQ_of_nonneg (by norm_num), Int.floor_eq_iff]
    constructor <;> norm_num
  rw [h]
  decide

/-- C8 (amended): for every valid linear16 sample `s` (all of which are
non-clipping, since `|s/32768| ≤ 1`), the round trip through the float32
codec shrinks the sample by exactly one toward zero:
`float32_to_linear16(linear16_to_float32(s)) = s - sign(s)`.  In particular
it is the identity exactly on the zero sample. -/
theorem linear16_roundtrip_off_by_one (s : ℤ) (h1 : -32768 ≤ s) (h2 : s ≤ 32767) :
    linear16_roundtrip s = s - s.sign := by
  have hc1 : (-32768 : ℚ) ≤ (s : ℚ) := by exact_mod_cast h1
  have hc2 : (s : ℚ) ≤ 32767 := by exact_mod_cast h2
  unfold linear16_roundtrip float32_to_linear16_sample pcm16_to_float32_sample
  have hval : (s : ℚ) / 32768 * 32767 = (s : ℚ) - (s : ℚ) / 32768 := by ring
  rcases lt_trichotomy s 0 with hs | hs | hs
  · have hsq : (s : ℚ) < 0 := by exact_mod_cast hs
    have hposdiv : 0 < -(s : ℚ) / 32768 := div_pos (by linarith) (by norm_num)
    have hble : -(s : ℚ) / 32768 ≤ 1 := by
      rw [div_le_one (by norm_num)]
      linarith
    have hneg : (s : ℚ) / 32768 * 32767 < 0 := by
      rw [hval]
      have : (s : ℚ) / 32768 = -(-(s : ℚ) / 32768) := by ring
      rw [this]
      linarith
    rw [truncQ_of_neg hneg]
    have hceil : ⌈(s : ℚ) / 32768 * 32767⌉ = s + 1 := by
      rw [Int.ceil_eq_iff, hval]
      constructor
      · push_cast
        have : (s : ℚ) / 32768 = -(-(s : ℚ) / 32768) := by ring
        rw [this]
        linarith
      · push_cast
        have : (s : ℚ) / 32768 = -(-(s : ℚ) / 32768) := by ring
        rw [this]
        linarith
    rw [hceil, wrap16_eq_self _ (by omega) (by omega)]
    have hsign : s.sign = -1 := Int.sign_eq_neg_one_of_neg hs
    omega
  · subst hs
    have h0 : ((0 : ℤ) : ℚ) / 32768 * 32767 = 0 := by norm_num
    rw [h0, truncQ_of_nonneg le_rfl, Int.floor_zero, wrap16_eq_self 0 (by decide) (by decide)]
    decide
  · have hsq : (0 : ℚ) < (s : ℚ) := by exact_mod_cast hs
    have hposdiv : 0 < (s : ℚ) / 32768 := div_pos hsq (by norm_num)
    have hble : (s : ℚ) / 32768 ≤ 1 := by
      rw [div_le_one (by norm_num)]
      linarith
    have hnn : 0 ≤ (s : ℚ) / 32768 * 32767 := by
      rw [hval]
      linarith
    rw [truncQ_of_nonneg hnn]
    have hfloor : ⌊(s : ℚ) / 32768 * 32767⌋ = s - 1 := by
      rw [Int.floor_eq_iff, hval]
      constructor
      · push_cast
        linarith
      · push_cast
        linarith
    rw [hfloor, wrap16_eq_self _ (by omega) (by omega)]
    have hsign : s.sign = 1 := Int.sign_eq_one_of_pos hs
    omega

/-- C8 witness: the off-by-one round-trip law at the concrete sample 5. -/
theorem linear16_roundtrip_off_by_one_witness :
    linear16_roundtrip 5 = 5 - (5 : ℤ).sign :=
  linear16_roundtrip_off_by_one 5 (by decide) (by decide)

/-- C9: on the telephony synthesis path (`twilio.py:328`) the float32 →
linear16 conversion multiplies by 32767 and casts to int16 with no clamping,
so the out-of-range synthesis sample 1.5 wraps around to -16386 instead of
the clamped value 32767 the spec requires; the greeting-audio path
(`greeting_audio.py:69`) does clip first and yields 32767. -/
theorem float32_to_linear16_wraps_without_clamp :
    float32_to_linear16_sample (3 / 2) = -16386 ∧
    spec_clamped_linear16 (3 / 2) = 32767 ∧
    float32_to_linear16_sample (3 / 2) ≠ spec_clamped_linear16 (3 / 2) ∧
    greeting_pcm16_sample (3 / 2) = 32767 := by
  have htr : truncQ ((3 / 2 : ℚ) * 32767) = 49150 := by
    rw [truncQ_of_nonneg (by norm_num), Int.floor_eq_iff]
    constructor <;> norm_num
  have h1 : float32_to_linear16_sample (3 / 2) = -16386 := by
    unfold float32_to_linear16_sample
    rw [htr]
    decide
  have h2 : spec_clamped_linear16 (3 / 2) = 32767 := by
    unfold spec_clamped_linear16
    rw [htr]
    decide
  have h3 : greeting_pcm16_sample (3 / 2) = 32767 := by
    unfold greeting_pcm16_sample clampQ
    have hm : max (-1 : ℚ) (min 1 (3 / 2)) = 1 := by norm_num
    rw [hm, truncQ_of_nonneg (by norm_num), show ((1 : ℚ) * 32767) = ((32767 : ℤ) : ℚ) by norm_num,
      Int.floor_intCast]
  exact ⟨h1, h2, by rw [h1, h2]; decide, h3⟩

/-! ## Association lists

Python `dict`s (insertion-ordered, unique keys) are modelled as association
lists; insertion of a fresh key appends at the end. -/

def alookup {K V : Type} [DecidableEq K] (k : K) : List (K × V) → Option V
  | [] => none
  | (k₀, v) :: t => if k₀ = k then some v else alookup k t

def aremove {K V : Type} [DecidableEq K] (k : K) : List (K × V) → List (K × V)
  | [] => []
  | (k₀, v) :: t => if k₀ = k then aremove k t else (k₀, v) :: aremove k t

/-- Model of Python dict assignment `d[k] = v`: update in place if the key
exists, otherwise append. -/
def aupdate {K V : Type} [DecidableEq K] (k : K) (v : V) : List (K × V) → List (K × V)
  | [] => [(k, v)]
  | (k₀, v₀) :: t => if k₀ = k then (k, v) :: t else (k₀, v₀) :: aupdate k v t

theorem alookup_aremove_self {K V : Type} [DecidableEq K] (k : K) (l : List (K × V)) :
    alookup k (aremove k l) = none := by
  induction l with
  | nil => rfl
  | cons p t ih =>
    obtain ⟨k₀, v⟩ := p
    by_cases h : k₀ = k
    · simpa [aremove, h] using ih
    · simpa [aremove, alookup, h] using ih

theorem alookup_aremove_ne {K V : Type} [DecidableEq K] {k k' : K} (h : k' ≠ k)
    (l : List (K × V)) : alookup k' (aremove k l) = alookup k' l := by
  induction l with
  | nil => rfl
  | cons p t ih =>
    obtain ⟨k₀, v⟩ := p
    simp only [aremove, alookup]
    by_cases h₀ : k₀ = k
    · have hne : k₀ ≠ k' := by
        rw [h₀]
        exact fun hk => h hk.symm
      rw [if_pos h₀, ih, if_neg hne]
    · rw [if_neg h₀]
      by_cases h₁ : k₀ = k'
      · simp [alookup, h₁]
      · simp only [alookup, if_neg h₁]
        exact ih

theorem alookup_mem_keys {K V : Type} [DecidableEq K] {k : K} {v : V} {l : List (K × V)}
    (h : alookup k l = some v) : k ∈ l.map Prod.fst := by
  induction l with
  | nil => simp [alookup] at h
  | cons p t ih =>
    obtain ⟨k₀, v₀⟩ := p
    by_cases h₀ : k₀ = k
    · simp [h₀]
    · simp only [alookup, if_neg h₀] at h
      simp [ih h]

theorem alookup_eq_none_iff {K V : Type} [DecidableEq K] {k : K} {l : List (K × V)} :
    alookup k l = none ↔ k ∉ l.map Prod.fst := by
  induction l with
  | nil => simp [alookup]
  | cons p t ih =>
    obtain ⟨k₀, v₀⟩ := p
    by_cases h₀ : k₀ = k
    · simp [alookup, h₀]
    · simp [alookup, h₀, ih, Ne.symm h₀]

theorem aremove_sublist {K V : Type} [DecidableEq K] (k : K) (l : List (K × V)) :
    (aremove k l).Sublist l := by
  induction l with
  | nil => simp [aremove]
  | cons p t ih =>
    obtain ⟨k₀, v⟩ := p
    by_cases h : k₀ = k
    · simp only [aremove, if_pos h]
      exact ih.cons _
    · simp only [aremove, if_neg h]
      exact ih.cons₂ _

theorem mem_keys_aremove {K V : Type} [DecidableEq K] {k k' : K} {l : List (K × V)} :
    k' ∈ (aremove k l).map Prod.fst ↔ (k' ∈ l.map Prod.fst ∧ k' ≠ k) := by
  induction l with
  | nil => simp [aremove]
  | cons p t ih =>
    obtain ⟨k₀, v⟩ := p
    simp only [aremove, List.map_cons, List.mem_cons]
    by_cases h : k₀ = k
    · rw [if_pos h, ih]
      constructor
      · exact fun hh => ⟨Or.inr hh.1, hh.2⟩
      · rintro ⟨hor | hmem, hne⟩
        · rw [h] at hor
          exact absurd hor hne
        · exact ⟨hmem, hne⟩
    · rw [if_neg h]
      simp only [List.map_cons, List.mem_cons, ih]
      constructor
      · rintro (hh | hh)
        · rw [hh]
          exact ⟨Or.inl rfl, fun hk => h (hh ▸ hk)⟩
        · exact ⟨Or.inr hh.1, hh.2⟩
      · rintro ⟨hor | hmem, hne⟩
        · exact Or.inl hor
        · exact Or.inr ⟨hmem, hne⟩

theorem nodup_keys_aremove {K V : Type} [DecidableEq K] (k : K) {l : List (K × V)}
    (h : (l.map Prod.fst).Nodup) : ((aremove k l).map Prod.fst).Nodup :=
  (((aremove_sublist k l).map Prod.fst)).nodup h

/-! ## Handoff session manager (`agent.py:58-341`)

WebSocket handles are modelled as opaque `ℕ` tokens and timestamps as `ℕ`.
The `uuid4()` default of `PendingHandoff.session_id` is modelled by a
freshness counter `next_session` carried in the manager state (uuid
collisions are assumed impossible, which is what the source relies on).
Network sends are modelled as a returned list of messages. -/

/-- Model of the `PendingHandoff` dataclass (`agent.py:58-66`). -/
structure PendingHandoff where
  user_id : String
  user_ws : ℕ
  reason : String
  requested_at : ℕ
  conversation_history : List (String × String)
  session_id : ℕ
deriving DecidableEq

/-- Model of the `ActiveCall` dataclass (`agent.py:69-78`). -/
structure ActiveCall where
  session_id : ℕ
  user_id : String
  agent_id : String
  user_ws : ℕ
  agent_ws : ℕ
  started_at : ℕ
  conversation_history : List (String × String)
deriving DecidableEq

/-- The JSON payloads the manager sends, by `type` field. -/
inductive Payload where
  | new_pending_call (session_id : ℕ) (user_id reason : String) (queue_position : ℕ)
  | queue_status (total_pending : ℕ)
  | agent_connected (session_id : ℕ) (agent_id : String)
  | call_accepted (session_id : ℕ) (user_id : String)
  | call_accepted_by_other (session_id : ℕ)
  | call_ended_user (ended_by : String)
  | call_ended_agent (session_id : ℕ) (ended_by : String)
  | call_cancelled (session_id : ℕ)
deriving DecidableEq

/-- A message sent to the WebSocket handle `dest`. -/
structure Msg where
  dest : ℕ
  payload : Payload
deriving DecidableEq

/-- Model of the `HandoffManager` registry state (`agent.py:84-88`). -/
structure HandoffManager where
  pending_handoffs : List (ℕ × PendingHandoff)
  active_calls : List (ℕ × ActiveCall)
  available_agents : List (String × ℕ)
  next_session : ℕ
deriving DecidableEq

def initManager : HandoffManager := ⟨[], [], [], 0⟩

/-- Model of `HandoffManager._broadcast_to_agents` (`agent.py:296-304`). -/
def broadcast_to_agents (m : HandoffManager) (p : Payload) (exclude_agent : Option String) :
    List Msg :=
  m.available_agents.filterMap fun a =>
    if exclude_agent = some a.1 then none else some ⟨a.2, p⟩

/-- Model of `HandoffManager.request_handoff` (`agent.py:90-119`): it
unconditionally creates a `PendingHandoff` under a fresh session id, inserts
it, and broadcasts a `new_pending_call` message carrying
`len(self.pending_handoffs)` (measured after the insertion) to every
registered agent. -/
def request_handoff (m : HandoffManager) (user_id : String) (user_ws : ℕ) (reason : String)
    (conversation_history : List (String × String)) (now : ℕ) :
    ℕ × HandoffManager × List Msg :=
  let sid := m.next_session
  let h : PendingHandoff := ⟨user_id, user_ws, reason, now, conversation_history, sid⟩
  let pending := m.pending_handoffs ++ [(sid, h)]
  let m' : HandoffManager := { m with pending_handoffs := pending, next_session := sid + 1 }
  (sid, m', broadcast_to_agents m' (.new_pending_call sid user_id reason pending.length) none)

/-- Model of `HandoffManager.register_agent` (`agent.py:121-142`): adds the
agent to the directory and sends it the current pending-queue snapshot. -/
def register_agent (m : HandoffManager) (agent_id : String) (agent_ws : ℕ) :
    HandoffManager × List Msg :=
  let m' : HandoffManager := { m with available_agents := aupdate agent_id agent_ws m.available_agents }
  (m', [⟨agent_ws, .queue_status m.pending_handoffs.length⟩])

/-- Model of `HandoffManager.unregister_agent` (`agent.py:144-149`). -/
def unregister_agent (m : HandoffManager) (agent_id : String) : HandoffManager :=
  { m with available_agents := m.available_agents.filterMap fun a =>
      if a.1 = agent_id then none else some a }

/-- Model of `HandoffManager.accept_call` (`agent.py:151-201`): if the
session id has no pending handoff the call returns `None` (unavailable) and
mutates nothing; otherwise the pending entry is popped, an `ActiveCall` is
created and stored, the user and the accepting agent are notified, and the
other agents receive `call_accepted_by_other`. -/
def accept_call (m : HandoffManager) (agent_id : String) (agent_ws : ℕ) (session_id : ℕ)
    (now : ℕ) : Option ActiveCall × HandoffManager × List Msg :=
  match alookup session_id m.pending_handoffs with
  | none => (none, m, [])
  | some h =>
    let call : ActiveCall :=
      ⟨session_id, h.user_id, agent_id, h.user_ws, agent_ws, now, h.conversation_history⟩
    let m' : HandoffManager :=
      { m with pending_handoffs := aremove session_id m.pending_handoffs,
               active_calls := m.active_calls ++ [(session_id, call)] }
    (some call, m',
      ⟨h.user_ws, .agent_connected session_id agent_id⟩ ::
      ⟨agent_ws, .call_accepted session_id h.user_id⟩ ::
      broadcast_to_agents m' (.call_accepted_by_other session_id) (some agent_id))

/-- Model of `HandoffManager.end_call` (`agent.py:203-231`): pops the active
call if present (notifying both parties), and also deletes any pending
handoff under the same session id. -/
def end_call (m : HandoffManager) (session_id : ℕ) (ended_by : String) :
    HandoffManager × List Msg :=
  let r : List (ℕ × ActiveCall) × List Msg :=
    match alookup session_id m.active_calls with
    | some call =>
      (aremove session_id m.active_calls,
       [⟨call.user_ws, .call_ended_user ended_by⟩,
        ⟨call.agent_ws, .call_ended_agent session_id ended_by⟩])
    | none => (m.active_calls, [])
  ({ m with active_calls := r.1, pending_handoffs := aremove session_id m.pending_handoffs },
   r.2)

/-- Model of `HandoffManager.cancel_handoff` (`agent.py:233-244`). -/
def cancel_handoff (m : HandoffManager) (session_id : ℕ) : HandoffManager × List Msg :=
  match alookup session_id m.pending_handoffs with
  | some _ =>
    ({ m with pending_handoffs := aremove session_id m.pending_handoffs },
     broadcast_to_agents m (.call_cancelled session_id) none)
  | none => (m, [])

/-- Model of the caller-side guard in `stt.py:365-371`: `process_and_respond`
requests a handoff only when a user id is known and the session does not
already hold a `handoff_session_id`. -/
def caller_request_handoff (m : HandoffManager) (user_id : Option String)
    (handoff_session_id : Option ℕ) (user_ws : ℕ) (reason : String)
    (hist : List (String × String)) (now : ℕ) : HandoffManager × Option ℕ × List Msg :=
  match user_id, handoff_session_id with
  | some uid, none =>
    let r := request_handoff m uid user_ws reason hist now
    (r.2.1, some r.1, r.2.2)
  | _, _ => (m, handoff_session_id, [])

/-- The registry operations available over the agent and caller websockets
(`agent.py:347-441`, `stt.py`); reachable states are those produced by a
sequence of these from the empty registry. -/
inductive HandoffOp where
  | request (user_id : String) (user_ws : ℕ) (reason : String)
      (hist : List (String × String)) (now : ℕ)
  | register (agent_id : String) (ws : ℕ)
  | unregister (agent_id : String)
  | accept (agent_id : String) (agent_ws : ℕ) (session_id : ℕ) (now : ℕ)
  | end_call (session_id : ℕ) (ended_by : String)
  | cancel (session_id : ℕ)

def applyOp (m : HandoffManager) : HandoffOp → HandoffManager
  | .request u w r h n => (request_handoff m u w r h n).2.1
  | .register a w => (register_agent m a w).1
  | .unregister a => unregister_agent m a
  | .accept a w s n => (accept_call m a w s n).2.1
  | .end_call s e => (end_call m s e).1
  | .cancel s => (cancel_handoff m s).1

def runOps (ops : List HandoffOp) : HandoffManager := ops.foldl applyOp initManager

theorem broadcast_none_eq_map (agents : List (String × ℕ)) (p : Payload) :
    (agents.filterMap fun a =>
        if (none : Option String) = some a.1 then none else some (⟨a.2, p⟩ : Msg)) =
      agents.map fun a => ⟨a.2, p⟩ := by
  induction agents with
  | nil => rfl
  | cons a t ih =>
    have h : (if (none : Option String) = some a.1 then none
        else some (⟨a.2, p⟩ : Msg)) = some ⟨a.2, p⟩ := by simp
    rw [List.filterMap_cons, h, ih, List.map_cons]

/-- C1: accepting a session id with no pending handoff returns the
"unavailable" result (`None`) and leaves the pending, active and agent maps
untouched; and in the race scenario `request_handoff("u1")`,
`accept_call("a1", 0)`, `accept_call("a2", 0)`, the first accept succeeds
and installs the ActiveCall for session 0 and agent "a1" while the second
returns "unavailable" and changes nothing — acceptance succeeds exactly
once. -/
theorem accept_call_unavailable_and_succeeds_once :
    (∀ (m : HandoffManager) (aid : String) (aws sid now : ℕ),
        alookup sid m.pending_handoffs = none →
        accept_call m aid aws sid now = (none, m, [])) ∧
    ((accept_call (request_handoff initManager "u1" 5 "help" [] 0).2.1 "a1" 11 0 1).1 =
        some ⟨0, "u1", "a1", 5, 11, 1, []⟩ ∧
      alookup 0
          (accept_call (request_handoff initManager "u1" 5 "help" [] 0).2.1
            "a1" 11 0 1).2.1.active_calls =
        some ⟨0, "u1", "a1", 5, 11, 1, []⟩ ∧
      accept_call
          (accept_call (request_handoff initManager "u1" 5 "help" [] 0).2.1 "a1" 11 0 1).2.1
          "a2" 12 0 2 =
        (none,
         (accept_call (request_handoff initManager "u1" 5 "help" [] 0).2.1 "a1" 11 0 1).2.1,
         [])) := by
  constructor
  · intro m aid aws sid now h
    simp [accept_call, h]
  · exact by decide

/-- C1 witness: the unavailable branch evaluated on the empty registry. -/
theorem accept_call_unavailable_witness :
    accept_call initManager "a1" 3 0 0 = (none, initManager, []) :=
  accept_call_unavailable_and_succeeds_once.1 initManager "a1" 3 0 0 (by decide)

/-- A registry state that already holds a pending handoff for user "u1"
(session 0) and one registered agent with handle 7. -/
def dupRequestState : HandoffManager :=
  (request_handoff (register_agent initManager "a" 7).1 "u1" 5 "help" [] 0).2.1

/-- C2 counterexample: with user "u1"'s session already pending,
`request_handoff` for the same user and handle inserts a second
`PendingHandoff` (under a fresh session id) and broadcasts a
`new_pending_call`, instead of rejecting as a no-op. -/
theorem request_handoff_not_a_rejecting_noop :
    dupRequestState.pending_handoffs.map (fun p => p.2.user_id) = ["u1"] ∧
    (request_handoff dupRequestState "u1" 5 "help" [] 1).2.1.pending_handoffs.length = 2 ∧
    (request_handoff dupRequestState "u1" 5 "help" [] 1).2.2 =
      [⟨7, .new_pending_call 1 "u1" "help" 2⟩] := by
  decide

/-- C2 (amended): `HandoffManager.request_handoff` never rejects: for every
registry state it appends a new `PendingHandoff` under the fresh session id,
leaves the active map unchanged, and broadcasts a `new_pending_call`
carrying the post-insertion queue depth to every registered agent.  The only
duplicate suppression is in the caller (`stt.py:365`), which skips the call
entirely when the session already holds a `handoff_session_id`. -/
theorem request_handoff_unconditional :
    (∀ (m : HandoffManager) (uid : String) (ws : ℕ) (reason : String)
        (hist : List (String × String)) (now : ℕ),
        (request_handoff m uid ws reason hist now).2.1.pending_handoffs =
          m.pending_handoffs ++
            [(m.next_session, ⟨uid, ws, reason, now, hist, m.next_session⟩)] ∧
        (request_handoff m uid ws reason hist now).2.1.active_calls = m.active_calls ∧
        (request_handoff m uid ws reason hist now).2.2 =
          m.available_agents.map
            (fun a => ⟨a.2, .new_pending_call m.next_session uid reason
                (m.pending_handoffs.length + 1)⟩)) ∧
    (∀ (m : HandoffManager) (uid : Option String) (sid ws : ℕ) (reason : String)
        (hist : List (String × String)) (now : ℕ),
        caller_request_handoff m uid (some sid) ws reason hist now = (m, some sid, [])) := by
  constructor
  · intro m uid ws reason hist now
    refine ⟨rfl, rfl, ?_⟩
    show broadcast_to_agents _ _ none = _
    unfold broadcast_to_agents
    rw [broadcast_none_eq_map]
    simp [request_handoff]
  · intro m uid sid ws reason hist now
    cases uid <;> rfl

/-- The registry after a single `request_handoff` for user "u" (session 0). -/
def endCallExampleState : HandoffManager :=
  (request_handoff initManager "u" 1 "r" [] 0).2.1

/-- C6: for every state and session id, `end_call` leaves the session id
present in neither the pending map nor the active map, keeps the lookups of
every other session id in both maps unchanged, and does not touch the agent
directory. -/
theorem end_call_removes_pending_and_active (m : HandoffManager) (sid : ℕ) (eb : String) :
    alookup sid (end_call m sid eb).1.pending_handoffs = none ∧
    alookup sid (end_call m sid eb).1.active_calls = none ∧
    (∀ s, s ≠ sid →
        alookup s (end_call m sid eb).1.pending_handoffs = alookup s m.pending_handoffs ∧
        alookup s (end_call m sid eb).1.active_calls = alookup s m.active_calls) ∧
    (end_call m sid eb).1.available_agents = m.available_agents := by
  cases halookup : alookup sid m.active_calls with
  | some call =>
    simp only [end_call, halookup]
    exact ⟨alookup_aremove_self _ _, alookup_aremove_self _ _,
           fun s hs => ⟨alookup_aremove_ne hs _, alookup_aremove_ne hs _⟩, trivial⟩
  | none =>
    simp only [end_call, halookup]
    exact ⟨alookup_aremove_self _ _, trivial,
           fun s hs => ⟨alookup_aremove_ne hs _, trivial⟩, trivial⟩

/-- C6 witness: ending session 0 of the one-pending-call registry clears it
from both maps and leaves session 5's (empty) lookups unchanged. -/
theorem end_call_removes_pending_and_active_witness :
    alookup 0 (end_call endCallExampleState 0 "agent").1.pending_handoffs = none ∧
    alookup 5 (end_call endCallExampleState 0 "agent").1.active_calls =
      alookup 5 endCallExampleState.active_calls :=
  ⟨(end_call_removes_pending_and_active endCallExampleState 0 "agent").1,
   ((end_call_removes_pending_and_active endCallExampleState 0 "agent").2.2.1 5
       (by decide)).2⟩

/-- The registry key invariant: the pending and active maps have no
duplicate session-id keys, their key sets are disjoint, and every key is
below the freshness counter. -/
def ManagerInv (m : HandoffManager) : Prop :=
  (m.pending_handoffs.map Prod.fst).Nodup ∧
  (m.active_calls.map Prod.fst).Nodup ∧
  (∀ k, k ∈ m.pending_handoffs.map Prod.fst → k ∉ m.active_calls.map Prod.fst) ∧
  (∀ k, k ∈ m.pending_handoffs.map Prod.fst → k < m.next_session) ∧
  (∀ k, k ∈ m.active_calls.map Prod.fst → k < m.next_session)

theorem applyOp_preserves_inv (m : HandoffManager) (op : HandoffOp) (h : ManagerInv m) :
    ManagerInv (applyOp m op) := by
  obtain ⟨hp, ha, hd, hbp, hba⟩ := h
  cases op with
  | request u w r hist n =>
    simp only [applyOp, request_handoff, ManagerInv]
    refine ⟨?_, ha, ?_, ?_, ?_⟩
    · rw [List.map_append]
      rw [List.nodup_append]
      refine ⟨hp, List.nodup_singleton _, ?_⟩
      intro k hk hk'
      simp only [List.map_cons, List.map_nil, List.mem_singleton] at hk'
      exact absurd (hk' ▸ hbp k hk) (lt_irrefl _)
    · intro k hk
      rw [List.map_append] at hk
      rcases List.mem_append.mp hk with hk | hk
      · exact hd k hk
      · simp only [List.map_cons, List.map_nil, List.mem_singleton] at hk
        subst hk
        intro hmem
        exact absurd (hba _ hmem) (lt_irrefl _)
    · intro k hk
      rw [List.map_append] at hk
      rcases List.mem_append.mp hk with hk | hk
      · exact lt_trans (hbp k hk) (Nat.lt_succ_self _)
      · simp only [List.map_cons, List.map_nil, List.mem_singleton] at hk
        subst hk
        exact Nat.lt_succ_self _
    · intro k hk
      exact lt_trans (hba k hk) (Nat.lt_succ_self _)
  | register a w =>
    exact ⟨hp, ha, hd, hbp, hba⟩
  | unregister a =>
    exact ⟨hp, ha, hd, hbp, hba⟩
  | accept a w sid n =>
    cases halookup : alookup sid m.pending_handoffs with
    | none =>
      simp only [applyOp, accept_call, halookup]
      exact ⟨hp, ha, hd, hbp, hba⟩
    | some ph =>
      have hsid_mem : sid ∈ m.pending_handoffs.map Prod.fst := alookup_mem_keys halookup
      have hsid_notact : sid ∉ m.active_calls.map Prod.fst := hd sid hsid_mem
      have hsid_lt : sid < m.next_session := hbp sid hsid_mem
      simp only [applyOp, accept_call, halookup, ManagerInv]
      refine ⟨nodup_keys_aremove sid hp, ?_, ?_, ?_, ?_⟩
      · rw [List.map_append, List.nodup_append]
        refine ⟨ha, List.nodup_singleton _, ?_⟩
        intro k hk hk'
        simp only [List.map_cons, List.map_nil, List.mem_singleton] at hk'
        exact hsid_notact (hk' ▸ hk)
      · intro k hk
        obtain ⟨hk, hkne⟩ := mem_keys_aremove.mp hk
        rw [List.map_append, List.mem_append]
        rintro (hmem | hmem)
        · exact hd k hk hmem
        · simp only [List.map_cons, List.map_nil, List.mem_singleton] at hmem
          exact hkne hmem
      · intro k hk
        exact hbp k (mem_keys_aremove.mp hk).1
      · intro k hk
        rw [List.map_append] at hk
        rcases List.mem_append.mp hk with hk | hk
        · exact hba k hk
        · simp only [List.map_cons, List.map_nil, List.mem_singleton] at hk
          exact hk ▸ hsid_lt
  | end_call sid e =>
    cases halookup : alookup sid m.active_calls with
    | some call =>
      simp only [applyOp, end_call, halookup, ManagerInv]
      refine ⟨nodup_keys_aremove sid hp, nodup_keys_aremove sid ha, ?_, ?_, ?_⟩
      · intro k hk hmem
        exact hd k (mem_keys_aremove.mp hk).1 (mem_keys_aremove.mp hmem).1
      · intro k hk
        exact hbp k (mem_keys_aremove.mp hk).1
      · intro k hk
        exact hba k (mem_keys_aremove.mp hk).1
    | none =>
      simp only [applyOp, end_call, halookup, ManagerInv]
      refine ⟨nodup_keys_aremove sid hp, ha, ?_, ?_, hba⟩
      · intro k hk
        exact hd k (mem_keys_aremove.mp hk).1
      · intro k hk
        exact hbp k (mem_keys_aremove.mp hk).1
  | cancel sid =>
    cases halookup : alookup sid m.pending_handoffs with
    | some ph =>
      simp only [applyOp, cancel_handoff, halookup, ManagerInv]
      refine ⟨nodup_keys_aremove sid hp, ha, ?_, ?_, hba⟩
      · intro k hk
        exact hd k (mem_keys_aremove.mp hk).1
      · intro k hk
        exact hbp k (mem_keys_aremove.mp hk).1
    | none =>
      simp only [applyOp, cancel_handoff, halookup]
      exact ⟨hp, ha, hd, hbp, hba⟩

theorem runOps_inv (ops : List HandoffOp) : ManagerInv (runOps ops) := by
  have hstep : ∀ (l : List HandoffOp) (m : HandoffManager),
      ManagerInv m → ManagerInv (l.foldl applyOp m) := by
    intro l
    induction l with
    | nil => exact fun m hm => hm
    | cons op t ih =>
      intro m hm
      exact ih _ (applyOp_preserves_inv m op hm)
  refine hstep ops initManager ⟨List.nodup_nil, List.nodup_nil, ?_, ?_, ?_⟩ <;>
    exact fun k hk => absurd hk (by simp [initManager])

/-- The operation sequence in which one agent accepts two distinct queued
sessions, producing two concurrent active calls held by the same agent. -/
def twoCallOps : List HandoffOp :=
  [.request "u1" 1 "r1" [] 0, .request "u2" 2 "r2" [] 0,
   .accept "a" 9 0 0, .accept "a" 9 1 0]

/-- C4 counterexample: `accept_call` never checks whether the accepting
agent already holds a call, so after `twoCallOps` the registry holds two
concurrent ActiveCalls, for sessions 0 and 1, both with agent_id "a" — the
claimed agent-uniqueness invariant fails in a reachable state. -/
theorem same_agent_two_active_calls :
    (runOps twoCallOps).active_calls.map (fun p => p.2.agent_id) = ["a", "a"] ∧
    (runOps twoCallOps).active_calls.map Prod.fst = [0, 1] := by
  decide

/-- C4 (amended): in every reachable registry state there is at most one
ActiveCall per session_id (the active map's keys are duplicate-free); the
agent-uniqueness half of the claim is refuted by the counterexample. -/
theorem active_calls_unique_per_session (ops : List HandoffOp) :
    ((runOps ops).active_calls.map Prod.fst).Nodup :=
  (runOps_inv ops).2.1

/-! ## Voice-activity segmenter (`twilio.py:417-461`)

The per-chunk speaking/silence state machine run on each complete scored
VAD chunk.  `above` abstracts `confidence > vad_service.speech_threshold`.
The source also guards the silence-triggered transition with
`not processing_llm`; `processing_llm` is read but never assigned anywhere
in the handler, so in any execution in which it is bound at all it holds its
initialization value, and the natural one (no LLM call in flight at start)
is false — the guard is modelled as always passing. -/

/-- Model of `twilio.py:48` `SILENCE_LIMIT_CHUNKS = 15`. -/
def SILENCE_LIMIT_CHUNKS : ℕ := 15

structure VadState where
  speaking : Bool
  silence_chunks : ℕ
deriving DecidableEq

/-- The speaking/silence state before any chunk has been scored. -/
def vadInit : VadState := ⟨false, 0⟩

/-- One scored chunk (`twilio.py:425-461`): an above-threshold chunk sets
`speaking` and zeroes the silence counter; a silent chunk increments the
counter only while speaking; then, if speaking and the counter has reached
`SILENCE_LIMIT_CHUNKS`, the utterance-candidate transition fires, clearing
`speaking` and the counter.  The returned flag reports whether the
silence-triggered transition fired on this chunk. -/
def vadStep (st : VadState) (above : Bool) : VadState × Bool :=
  let s1 : VadState :=
    if above then ⟨true, 0⟩
    else if st.speaking then ⟨st.speaking, st.silence_chunks + 1⟩ else st
  if s1.speaking = true ∧ SILENCE_LIMIT_CHUNKS ≤ s1.silence_chunks then (⟨false, 0⟩, true)
  else (s1, false)

/-- Run the segmenter over a chunk sequence, counting silence-triggered
transitions. -/
def vadRun (st : VadState) : List Bool → VadState × ℕ
  | [] => (st, 0)
  | f :: fs =>
    let s := vadStep st f
    let r := vadRun s.1 fs
    (r.1, (if s.2 then 1 else 0) + r.2)

/-- The counter stays within the hysteresis window: at most 14 while
speaking, and pinned to 0 while silent. -/
def VadInv (st : VadState) : Prop :=
  (st.speaking = true → st.silence_chunks ≤ 14) ∧
  (st.speaking = false → st.silence_chunks = 0)

theorem vadStep_true_eq (st : VadState) : vadStep st true = (⟨true, 0⟩, false) := by
  simp [vadStep, SILENCE_LIMIT_CHUNKS]

theorem vadStep_false_idle (c : ℕ) : vadStep ⟨false, c⟩ false = (⟨false, c⟩, false) := by
  simp [vadStep, SILENCE_LIMIT_CHUNKS]

theorem vadStep_false_speaking (c : ℕ) :
    vadStep ⟨true, c⟩ false =
      if 15 ≤ c + 1 then (⟨false, 0⟩, true) else (⟨true, c + 1⟩, false) := by
  simp [vadStep, SILENCE_LIMIT_CHUNKS]

theorem vadStep_preserves_inv (st : VadState) (f : Bool) (h : VadInv st) :
    VadInv (vadStep st f).1 := by
  obtain ⟨h1, h2⟩ := h
  obtain ⟨sp, c⟩ := st
  cases f with
  | true =>
    rw [vadStep_true_eq]
    simp [VadInv]
  | false =>
    cases sp with
    | false =>
      rw [vadStep_false_idle]
      exact ⟨h1, h2⟩
    | true =>
      rw [vadStep_false_speaking]
      by_cases h15 : 15 ≤ c + 1
      · rw [if_pos h15]
        simp [VadInv]
      · rw [if_neg h15]
        exact ⟨fun _ => (by omega : c + 1 ≤ 14), fun hh => by simp at hh⟩

theorem vadRun_preserves_inv (fs : List Bool) (st : VadState) (h : VadInv st) :
    VadInv (vadRun st fs).1 := by
  induction fs generalizing st with
  | nil => exact h
  | cons f t ih => exact ih _ (vadStep_preserves_inv st f h)

theorem vadRun_silent_window (k c : ℕ) (h : c + k ≤ 14) :
    vadRun ⟨true, c⟩ (List.replicate k false) = (⟨true, c + k⟩, 0) := by
  induction k generalizing c with
  | zero => rfl
  | succ n ih =>
    have hstep : vadStep ⟨true, c⟩ false = (⟨true, c + 1⟩, false) := by
      rw [vadStep_false_speaking, if_neg (by omega)]
    rw [List.replicate_succ]
    simp only [vadRun, hstep, ih (c + 1) (by omega)]
    have hc : c + 1 + n = c + (n + 1) := by omega
    rw [hc]
    simp

/-- C5: the hysteresis of the speaking flag.  (i) An above-threshold chunk
always resets the silence counter to 0 (and never fires the transition);
(ii) the silence transition fires on a chunk exactly when the chunk is at or
below threshold, the state is speaking, and 14 silent chunks have already
accumulated — so it fires on the 15th consecutive silent chunk since the
last above-threshold chunk; (iii) from a freshly-reset speaking state, any
run of fewer than 15 silent chunks fires nothing and keeps `speaking` true;
(iv) 15 silent chunks fire the transition exactly once, ending not
speaking; (v) the counter invariant holds in every reachable state; and
(vi) in the concrete scenario of 20 above-threshold chunks then 15 silent
chunks exactly one transition fires, after the 15th silent chunk and not
after the 14th. -/
theorem vad_hysteresis :
    (∀ st : VadState, vadStep st true = (⟨true, 0⟩, false)) ∧
    (∀ (st : VadState) (f : Bool),
        (vadStep st f).2 = true ↔
          (f = false ∧ st.speaking = true ∧ 14 ≤ st.silence_chunks)) ∧
    (∀ k c, c + k ≤ 14 → vadRun ⟨true, c⟩ (List.replicate k false) = (⟨true, c + k⟩, 0)) ∧
    vadRun ⟨true, 0⟩ (List.replicate 15 false) = (⟨false, 0⟩, 1) ∧
    (∀ fs : List Bool, VadInv (vadRun vadInit fs).1) ∧
    vadRun vadInit (List.replicate 20 true ++ List.replicate 14 false) = (⟨true, 14⟩, 0) ∧
    vadRun vadInit (List.replicate 20 true ++ List.replicate 15 false) = (⟨false, 0⟩, 1) := by
  refine ⟨vadStep_true_eq, ?_, ?_, by decide, ?_, by decide, by decide⟩
  · intro st f
    obtain ⟨sp, c⟩ := st
    cases f with
    | true =>
      rw [vadStep_true_eq]
      exact ⟨fun hh => by simp at hh, fun hh => by simp at hh⟩
    | false =>
      cases sp with
      | false =>
        rw [vadStep_false_idle]
        exact ⟨fun hh => by simp at hh, fun hh => by simp at hh⟩
      | true =>
        rw [vadStep_false_speaking]
        by_cases h15 : 15 ≤ c + 1
        · rw [if_pos h15]
          exact ⟨fun _ => ⟨rfl, rfl, (by omega : 14 ≤ c)⟩, fun _ => rfl⟩
        · rw [if_neg h15]
          exact ⟨fun hh => by simp at hh, fun hh => absurd hh.2.2 (by omega : ¬ 14 ≤ c)⟩
  · exact fun k c h => vadRun_silent_window k c h
  · exact fun fs => vadRun_preserves_inv fs vadInit ⟨by simp [vadInit], fun _ => rfl⟩

/-- C5 witness: the hysteresis facts instantiated at concrete states — the
reset law at a mid-count speaking state, the 14-chunk window law, the firing
criterion at the 14-count state, and the invariant after a short concrete
run. -/
theorem vad_hysteresis_witness :
    vadStep ⟨true, 7⟩ true = (⟨true, 0⟩, false) ∧
    vadRun ⟨true, 2⟩ (List.replicate 3 false) = (⟨true, 2 + 3⟩, 0) ∧
    ((vadStep ⟨true, 14⟩ false).2 = true ↔
      (false = false ∧ true = true ∧ 14 ≤ 14)) ∧
    VadInv (vadRun vadInit [true, false, true]).1 :=
  ⟨vad_hysteresis.1 ⟨true, 7⟩,
   vad_hysteresis.2.2.1 3 2 (by decide),
   vad_hysteresis.2.1 ⟨true, 14⟩ false,
   vad_hysteresis.2.2.2.2.1 [true, false, true]⟩

/-! ## Turn/barge-in controller (`stt.py:179-227`, `stt.py:308-455`)

`finalize_utterance` cancels a running response task, awaits its termination
while swallowing its `CancelledError`, and only then creates the next
response task, so the session's event stream is the (cancelled) old task's
events followed by the new task's events.  A response task is abstracted by
the number of audio chunks it would stream; cancellation delivery is
nondeterministic and modelled by the number `k` of chunks already sent when
the cancellation lands.  Per `stt.py:446-451`, a task cancelled during
streaming sends the "interrupted" notification from its `CancelledError`
handler, re-raises, and emits nothing further. -/

inductive RespEvent where
  | audio (task idx : ℕ)
  | interrupted (task : ℕ)
  | audio_end (task : ℕ)
  | task_cancelled (task : ℕ)
deriving DecidableEq

/-- The task id an event belongs to. -/
def evTask : RespEvent → ℕ
  | .audio t _ => t
  | .interrupted t => t
  | .audio_end t => t
  | .task_cancelled t => t

/-- Events of a response task that runs to completion: its audio chunks in
order, then `audio_end` (`stt.py:446`, `stt.py:454`). -/
def runToEnd (tid chunks : ℕ) : List RespEvent :=
  (List.range chunks).map (RespEvent.audio tid) ++ [RespEvent.audio_end tid]

/-- Events of a response task cancelled after `k` chunks were sent: the
chunks already sent, then the "interrupted" notification from the
`CancelledError` handler, then the cancelled terminal state observed by the
awaiting `finalize_utterance` (`stt.py:448-451`, `stt.py:214-218`). -/
def runCancelledAt (tid chunks k : ℕ) : List RespEvent :=
  (List.range (min k chunks)).map (RespEvent.audio tid) ++
    [RespEvent.interrupted tid, RespEvent.task_cancelled tid]

/-- Model of `finalize_utterance` (`stt.py:211-227`): with a running old
task (id, total chunks, chunks already sent) it is cancelled and awaited to
termination before the new task runs; with no old task the new task simply
runs. -/
def finalize_utterance_trace (old : Option (ℕ × ℕ × ℕ)) (newId newChunks : ℕ) :
    List RespEvent :=
  match old with
  | some (oldId, oldChunks, k) => runCancelledAt oldId oldChunks k ++ runToEnd newId newChunks
  | none => runToEnd newId newChunks

theorem runCancelledAt_length (tid ch k : ℕ) :
    (runCancelledAt tid ch k).length = min k ch + 2 := by
  simp [runCancelledAt]

theorem runCancelledAt_get_interrupted (tid ch k : ℕ) :
    (runCancelledAt tid ch k)[min k ch]? = some (RespEvent.interrupted tid) := by
  unfold runCancelledAt
  rw [List.getElem?_append_right (by simp)]
  simp

theorem runCancelledAt_get_cancelled (tid ch k : ℕ) :
    (runCancelledAt tid ch k)[min k ch + 1]? = some (RespEvent.task_cancelled tid) := by
  unfold runCancelledAt
  rw [List.getElem?_append_right (by simp)]
  simp

theorem runCancelledAt_audio_lt {tid ch k j t m : ℕ}
    (h : (runCancelledAt tid ch k)[j]? = some (RespEvent.audio t m)) : j < min k ch := by
  by_contra hge
  push_neg at hge
  unfold runCancelledAt at h
  rw [List.getElem?_append_right (by simpa using hge)] at h
  simp only [List.length_map, List.length_range] at h
  rcases hd : j - min k ch with _ | n
  · rw [hd] at h
    simp at h
  · rw [hd] at h
    cases n with
    | zero => simp at h
    | succ d => simp at h

theorem mem_runToEnd_task {tid n : ℕ} {e : RespEvent} (h : e ∈ runToEnd tid n) :
    evTask e = tid := by
  unfold runToEnd at h
  rcases List.mem_append.mp h with h | h
  · obtain ⟨i, _, rfl⟩ := List.mem_map.mp h
    rfl
  · rw [List.mem_singleton.mp h]
    rfl

theorem mem_runCancelledAt_task {tid ch k : ℕ} {e : RespEvent}
    (h : e ∈ runCancelledAt tid ch k) : evTask e = tid := by
  unfold runCancelledAt at h
  rcases List.mem_append.mp h with h | h
  · obtain ⟨i, _, rfl⟩ := List.mem_map.mp h
    rfl
  · rcases List.mem_cons.mp h with h | h
    · rw [h]
      rfl
    · rw [List.mem_singleton.mp h]
      rfl

/-- C3: barge-in ordering.  In the event stream produced when a new
utterance finalizes while response task `a` (with `k` chunks already sent)
is running and response task `b` is started: the "interrupted" notification
of `a` appears at position `min k ca`; every audio chunk of `a` is sent
strictly before it (so none after it); `a` reaches its cancelled terminal
state at the next position; and every audio chunk of `b` is sent strictly
after `a` is cancelled — `a` is cancelled before `b`'s first frame. -/
theorem barge_in_order (a ca k b cb : ℕ) (hab : a ≠ b) :
    (finalize_utterance_trace (some (a, ca, k)) b cb)[min k ca]? =
        some (RespEvent.interrupted a) ∧
    (∀ j m, (finalize_utterance_trace (some (a, ca, k)) b cb)[j]? =
        some (RespEvent.audio a m) → j < min k ca) ∧
    (finalize_utterance_trace (some (a, ca, k)) b cb)[min k ca + 1]? =
        some (RespEvent.task_cancelled a) ∧
    (∀ j m, (finalize_utterance_trace (some (a, ca, k)) b cb)[j]? =
        some (RespEvent.audio b m) → min k ca + 1 < j) := by
  refine ⟨?_, ?_, ?_, ?_⟩
  · unfold finalize_utterance_trace
    rw [List.getElem?_append_left (by rw [runCancelledAt_length]; omega)]
    exact runCancelledAt_get_interrupted a ca k
  · intro j m h
    unfold finalize_utterance_trace at h
    by_cases hj : j < (runCancelledAt a ca k).length
    · rw [List.getElem?_append_left hj] at h
      exact runCancelledAt_audio_lt h
    · rw [List.getElem?_append_right (le_of_not_lt hj)] at h
      have hmem := List.getElem?_mem h
      have := mem_runToEnd_task hmem
      exact absurd this hab
  · unfold finalize_utterance_trace
    rw [List.getElem?_append_left (by rw [runCancelledAt_length]; omega)]
    exact runCancelledAt_get_cancelled a ca k
  · intro j m h
    unfold finalize_utterance_trace at h
    by_cases hj : j < (runCancelledAt a ca k).length
    · rw [List.getElem?_append_left hj] at h
      have hmem := List.getElem?_mem h
      have := mem_runCancelledAt_task hmem
      exact absurd this hab.symm
    · rw [runCancelledAt_length] at hj
      omega

/-- C3 witness: the ordering facts evaluated on the concrete barge-in of
task 0 (3 chunks total, cancelled after 1) by task 1 (2 chunks): the audio
chunk of 0 at position 0 precedes the interruption at position 1, the
cancellation sits at position 2, and task 1's audio at position 4 follows
it. -/
theorem barge_in_order_witness :
    (finalize_utterance_trace (some (0, 3, 1)) 1 2)[min 1 3]? =
        some (RespEvent.interrupted 0) ∧
    (0 : ℕ) < min 1 3 ∧
    (finalize_utterance_trace (some (0, 3, 1)) 1 2)[min 1 3 + 1]? =
        some (RespEvent.task_cancelled 0) ∧
    min 1 3 + 1 < 4 :=
  ⟨(barge_in_order 0 3 1 1 2 (by decide)).1,
   (barge_in_order 0 3 1 1 2 (by decide)).2.1 0 0 (by decide),
   (barge_in_order 0 3 1 1 2 (by decide)).2.2.1,
   (barge_in_order 0 3 1 1 2 (by decide)).2.2.2 4 1 (by decide)⟩

/-! ## Telephony media handler (`twilio.py:96-489`)

The local environment of `media_stream` before the receive loop
(`twilio.py:114-137`) and the handling of one "media" event
(`twilio.py:390-461`).  Audio content and the injected scorer are abstracted
away: a media payload is represented by the list of per-complete-chunk
above-threshold verdicts it contributes.  Python locals that are assigned
somewhere in the function but read before any assignment are unbound at
that read and raise `UnboundLocalError`; the environment stores `none` for
a variable in that unbound state. -/

/-- The locals of `media_stream` the media branch touches.  The first seven
receive initializers before the loop (`twilio.py:115-127`); the last six —
`vad_buffer`, `speaking`, `silence_chunks`, `transcript_buffer`,
`waiting_for_transcript`, `processing_llm` — are assigned only inside the
loop body (or nowhere at all), so an outer `Option` records whether they
are bound yet. -/
structure MediaLocals where
  stream_sid : Option String
  call_sid : Option String
  conversation_history : List (String × String)
  tts_task : Option ℕ
  detected_language : String
  current_utterance_parts : List String
  utterance_timer_task : Option ℕ
  vad_buffer : Option (List Bool)
  speaking : Option Bool
  silence_chunks : Option ℕ
  transcript_buffer : Option (List String)
  waiting_for_transcript : Option Bool
  processing_llm : Option Bool
deriving DecidableEq

/-- The environment produced by `twilio.py:114-137`: the six loop variables
have no initializer anywhere before the loop. -/
def initMediaLocals : MediaLocals :=
  { stream_sid := none, call_sid := none, conversation_history := [],
    tts_task := none, detected_language := "en", current_utterance_parts := [],
    utterance_timer_task := none,
    vad_buffer := none, speaking := none, silence_chunks := none,
    transcript_buffer := none, waiting_for_transcript := none, processing_llm := none }

inductive PyErr where
  | unboundLocal (name : String)
deriving DecidableEq

inductive MediaAction where
  | stream_stt
  | vad_score
  | interrupt_tts
  | start_response
deriving DecidableEq

/-- The mutable state of the chunking while-loop (`twilio.py:419-461`). -/
structure MediaLoopState where
  tts_task : Option ℕ
  vad : VadState
  transcript_buffer : List String
  waiting_for_transcript : Bool
deriving DecidableEq

/-- One iteration of the while-loop body on a scored chunk
(`twilio.py:420-461`): on speech, interrupt a running TTS task, clear stale
transcripts when speech is fresh, set speaking and zero the counter; on
silence, count while speaking; then fire the silence-triggered processing
when the threshold is reached and no LLM call is marked in flight. -/
def mediaChunkStep (pl : Bool) (s : MediaLoopState) (above : Bool) :
    MediaLoopState × List MediaAction :=
  if above then
    let acts := match s.tts_task with
      | some _ => [MediaAction.interrupt_tts]
      | none => []
    let tb1 := if s.vad.speaking then s.transcript_buffer else []
    let wt1 := if s.vad.speaking then s.waiting_for_transcript else false
    (⟨none, ⟨true, 0⟩, tb1, wt1⟩, acts)
  else
    let st1 : VadState :=
      if s.vad.speaking then ⟨s.vad.speaking, s.vad.silence_chunks + 1⟩ else s.vad
    if st1.speaking = true ∧ SILENCE_LIMIT_CHUNKS ≤ st1.silence_chunks ∧ pl = false then
      if s.transcript_buffer ≠ [] then
        (⟨some 0, ⟨false, 0⟩, s.transcript_buffer, false⟩, [MediaAction.start_response])
      else
        (⟨s.tts_task, ⟨false, 0⟩, s.transcript_buffer, true⟩, [])
    else
      (⟨s.tts_task, st1, s.transcript_buffer, s.waiting_for_transcript⟩, [])

def mediaVadLoop (pl : Bool) (s : MediaLoopState) : List Bool → MediaLoopState × List MediaAction
  | [] => (s, [])
  | c :: rest =>
    let r := mediaChunkStep pl s c
    let rr := mediaVadLoop pl r.1 rest
    (rr.1, (MediaAction.vad_score :: r.2) ++ rr.2)

/-- Model of the "media" event branch (`twilio.py:390-461`).  A non-empty
payload is decoded, resampled (pure) and streamed to the transcription
service; then `vad_buffer += resampled` reads `vad_buffer` before assigning
it — if unbound this raises `UnboundLocalError` right there.  Were the loop
variables bound, the while-loop would run `mediaVadLoop` over the complete
chunks (the loop body reads `speaking`, `silence_chunks`,
`transcript_buffer`, `waiting_for_transcript` and `processing_llm`, each of
which would raise on its own first read). -/
def media_event_actions (env : MediaLocals) (payload_chunks : List Bool) :
    List MediaAction × Except PyErr MediaLocals :=
  if payload_chunks.isEmpty then ([], .ok env)
  else
    match env.vad_buffer with
    | none => ([MediaAction.stream_stt], .error (.unboundLocal "vad_buffer"))
    | some buf =>
      match env.speaking with
      | none => ([MediaAction.stream_stt], .error (.unboundLocal "speaking"))
      | some sp =>
        match env.silence_chunks with
        | none => ([MediaAction.stream_stt], .error (.unboundLocal "silence_chunks"))
        | some sc =>
          match env.transcript_buffer with
          | none => ([MediaAction.stream_stt], .error (.unboundLocal "transcript_buffer"))
          | some tb =>
            match env.waiting_for_transcript with
            | none => ([MediaAction.stream_stt], .error (.unboundLocal "waiting_for_transcript"))
            | some wt =>
              match env.processing_llm with
              | none => ([MediaAction.stream_stt], .error (.unboundLocal "processing_llm"))
              | some pl =>
                let r := mediaVadLoop pl ⟨env.tts_task, ⟨sp, sc⟩, tb, wt⟩ (buf ++ payload_chunks)
                let env' : MediaLocals := { env with
                  vad_buffer := some []
                  tts_task := r.1.tts_task
                  speaking := some r.1.vad.speaking
                  silence_chunks := some r.1.vad.silence_chunks
                  transcript_buffer := some r.1.transcript_buffer
                  waiting_for_transcript := some r.1.waiting_for_transcript }
                (MediaAction.stream_stt :: r.2, .ok env')

/-- C10: in `media_stream`, the six loop variables are unbound in the
initial environment (no assignment anywhere in the handler precedes their
first read), so the first non-empty "media" payload streams audio to the
transcription service and then raises `UnboundLocalError` at
`vad_buffer += resampled` — before any VAD scoring, speaking-state update,
TTS interruption, or response start can occur on the telephony path. -/
theorem media_stream_unbound_vad_buffer :
    (initMediaLocals.vad_buffer = none ∧ initMediaLocals.speaking = none ∧
     initMediaLocals.silence_chunks = none ∧ initMediaLocals.transcript_buffer = none ∧
     initMediaLocals.waiting_for_transcript = none ∧
     initMediaLocals.processing_llm = none) ∧
    ∀ chunks : List Bool, chunks ≠ [] →
      media_event_actions initMediaLocals chunks =
        ([MediaAction.stream_stt], .error (.unboundLocal "vad_buffer")) := by
  refine ⟨by decide, ?_⟩
  intro chunks h
  unfold media_event_actions
  rw [if_neg (by simp [h])]
  rfl

/-- C10 witness: the first media payload with one complete chunk errors at
the `vad_buffer` read after streaming to the transcription service. -/
theorem media_stream_unbound_vad_buffer_witness :
    media_event_actions initMediaLocals [true] =
      ([MediaAction.stream_stt], .error (.unboundLocal "vad_buffer")) :=
  media_stream_unbound_vad_buffer.2 [true] (by decide)

end Anta
